import Mathlib

/-!
Verification of the StringArtGenerator core algorithms.

A shallow embedding of the string-art generation engine
(`src/lib/algorithms/pinCalculation.ts`, `src/lib/algorithms/lineOptimization.ts`,
`src/lib/algorithms/stringArtEngine.ts`, `src/lib/algorithms/yarnConversion.ts`)
together with theorems settling the specification claims.

Modelling conventions:
* JavaScript numbers that only ever hold integers are modelled as `ℕ`/`ℤ`;
  quantities produced by real division are modelled as `ℚ` (the source values
  are IEEE doubles; every claim proved here is about exact arithmetic facts
  that hold for the double computation on the inputs considered).
* Mutation (the error matrix, the line cache) is modelled by explicit state
  passing; `Float32Array` buffers become `List ℤ`.
* The modules `src/lib/math/interpolation.ts` (`linspace`) and
  `src/lib/math/geometry.ts` (`calculatePinDistance`, `calculatePinPositions`)
  are imported by the algorithm files but are not present in the repository
  snapshot; `linspace` is modelled from the spec and the Euclidean distance
  function is kept as an explicit parameter of the definitions that use it.
-/

namespace StringArt

/-- JavaScript's `Math.round`: round half towards positive infinity. -/
def jsRound (q : ℚ) : ℤ := ⌊q + 1 / 2⌋

/-- Clamping of a freshly written error-matrix value, from `applyLineMask`
(`lineOptimization.ts` lines 99-101):
`if (newValue < 0) newValue = 0; if (newValue > 255) newValue = 255;`. -/
def clampErrorValue (v : ℤ) : ℤ :=
  let v₁ := if v < 0 then 0 else v
  if v₁ > 255 then 255 else v₁

/-! Section: Pin index geometry (`pinCalculation.ts`) -/

/-- Embeds `getPinAtOffset` (`pinCalculation.ts` lines 210-216):
`(currentPin + offset) % numberOfPins`. -/
def getPinAtOffset (currentPin offset numberOfPins : ℕ) : ℕ :=
  (currentPin + offset) % numberOfPins

/-- Embeds `calculateMinPinDistance` (`pinCalculation.ts` lines 221-229):
`direct = |pin2 - pin1|; wraparound = numberOfPins - direct; min`. -/
def calculateMinPinDistance (pin1 pin2 numberOfPins : ℕ) : ℕ :=
  let direct := ((pin2 : ℤ) - (pin1 : ℤ)).natAbs
  min direct (numberOfPins - direct)

/-- Embeds `getValidTargetPins` (`pinCalculation.ts` lines 234-251): pins at circular
offset `minDistance ≤ o < numberOfPins - minDistance` from `currentPin`,
skipping excluded pins, in offset-ascending order. -/
def getValidTargetPins (currentPin minDistance numberOfPins : ℕ)
    (excludePins : List ℕ) : List ℕ :=
  ((List.range' minDistance (numberOfPins - minDistance - minDistance)).map
    (fun offset => getPinAtOffset currentPin offset numberOfPins)).filter
    (fun targetPin => decide (targetPin ∉ excludePins))

/-! Section: Data model (`types/stringArt.ts`, `types/yarn.ts`) -/

/-- The `shape` parameter: `'circle' | 'rectangle'`. -/
inductive Shape where
  | circle
  | rectangle
deriving DecidableEq

/-- A pin coordinate `[x, y]` in integer pixel space. -/
abbrev PinCoordinate := ℤ × ℤ

/-- Embeds `StringArtParameters` (`types/stringArt.ts`), restricted to the fields read
by the algorithms modelled here. -/
structure StringArtParameters where
  shape : Shape
  numberOfPins : ℕ
  numberOfLines : ℕ
  lineWeight : ℤ
  minDistance : ℕ
  imgSize : ℕ
  scale : ℚ
  hoopDiameter : ℚ
  width : Option ℚ
  height : Option ℚ

/-- Embeds `LineCache` (`types/stringArt.ts`): flat `numPins × numPins` tables, the
JS arrays modelled as total maps from the flat index (out-of-range access in
JS yields `undefined`/the fill value, never observed by the algorithms). -/
structure LineCache where
  x : ℕ → Option (List ℤ)
  y : ℕ → Option (List ℤ)
  length : ℕ → ℤ
  weight : ℕ → ℤ

/-! Section: Line optimization (`lineOptimization.ts`) -/

/-- Effective row stride of the flattened error matrix, from
`lineOptimization.ts` lines 143-154 (and identically lines 193-203): `imgSize`
for squares, `max(1, round(imgSize * width/height))` for portrait rectangles.
The JS guard `params.width && params.height` is truthiness, so zero
dimensions fall back to `imgSize`. -/
def effectiveWidth (params : StringArtParameters) : ℤ :=
  match params.shape, params.width, params.height with
  | Shape.rectangle, some w, some h =>
      if w ≠ 0 ∧ h ≠ 0 then
        if 1 ≤ w / h then (params.imgSize : ℤ)
        else max 1 (jsRound ((params.imgSize : ℚ) * (w / h)))
      else (params.imgSize : ℤ)
  | _, _, _ => (params.imgSize : ℤ)

/-- Embeds `calculateLineError` (`lineOptimization.ts` lines 61-80): sum the error
matrix over the sampled pixels of a line, skipping out-of-bounds flat
indices. `lineErrorStep` is the body of the loop at lines 69-77. -/
def lineErrorStep (errorMatrix : List ℤ) (imgWidth : ℤ) (totalError : ℤ)
    (p : ℤ × ℤ) : ℤ :=
  let pixelIndex := p.2 * imgWidth + p.1
  if 0 ≤ pixelIndex ∧ pixelIndex < (errorMatrix.length : ℤ) then
    totalError + errorMatrix.getD pixelIndex.toNat 0
  else totalError

def calculateLineError (errorMatrix : List ℤ) (xs ys : List ℤ)
    (imgWidth : ℤ) : ℤ :=
  (xs.zip ys).foldl (lineErrorStep errorMatrix imgWidth) 0

/-- Embeds `applyLineMask` (`lineOptimization.ts` lines 86-106): subtract the line
weight at every sampled pixel of the line, clamping each written value to
`[0, 255]`; out-of-bounds flat indices are skipped. `lineMaskStep` is the
body of the loop at lines 94-105. -/
def lineMaskStep (lineWeight imgWidth : ℤ) (m : List ℤ) (p : ℤ × ℤ) : List ℤ :=
  let pixelIndex := p.2 * imgWidth + p.1
  if 0 ≤ pixelIndex ∧ pixelIndex < (m.length : ℤ) then
    m.set pixelIndex.toNat (clampErrorValue (m.getD pixelIndex.toNat 0 - lineWeight))
  else m

def applyLineMask (errorMatrix : List ℤ) (xs ys : List ℤ)
    (lineWeight imgWidth : ℤ) : List ℤ :=
  (xs.zip ys).foldl (lineMaskStep lineWeight imgWidth) errorMatrix

/-- Embeds `createErrorMatrix` (`lineOptimization.ts` lines 290-302):
`errorMatrix[i] = 255 - processedImageData[i]`. -/
def createErrorMatrix (processedImageData : List ℤ) : List ℤ :=
  processedImageData.map (fun v => 255 - v)

/-- The score the candidate loop of `findBestNextPin` assigns to candidate
`testPin` (`lineOptimization.ts` lines 156-160): line error times the cached
weight, reading the cached coordinate lists at index
`testPin * numberOfPins + currentPin`. -/
def candidateScore (errorMatrix : List ℤ) (cache : LineCache)
    (currentPin numberOfPins : ℕ) (effWidth : ℤ) (testPin : ℕ) : ℤ :=
  let cacheIndex := testPin * numberOfPins + currentPin
  calculateLineError errorMatrix ((cache.x cacheIndex).getD [])
    ((cache.y cacheIndex).getD []) effWidth * cache.weight cacheIndex

/-- The candidate loop of `findBestNextPin` (`lineOptimization.ts` lines
119-167): running `(maxError, bestPin)` state initialised to `(-1, -1)`,
candidates with a `null` cache entry are skipped, and the best pin is updated
only on a strictly greater score. -/
def findBestLoop (errorMatrix : List ℤ) (cache : LineCache)
    (currentPin numberOfPins : ℕ) (effWidth : ℤ) :
    List ℕ → ℤ → ℤ → ℤ × ℤ
  | [], maxError, bestPin => (bestPin, maxError)
  | testPin :: rest, maxError, bestPin =>
      let cacheIndex := testPin * numberOfPins + currentPin
      match cache.x cacheIndex, cache.y cacheIndex with
      | some xs, some ys =>
          let lineError :=
            calculateLineError errorMatrix xs ys effWidth * cache.weight cacheIndex
          if maxError < lineError then
            findBestLoop errorMatrix cache currentPin numberOfPins effWidth
              rest lineError (testPin : ℤ)
          else
            findBestLoop errorMatrix cache currentPin numberOfPins effWidth
              rest maxError bestPin
      | _, _ =>
          findBestLoop errorMatrix cache currentPin numberOfPins effWidth
            rest maxError bestPin

/-- Embeds `findBestNextPin` (`lineOptimization.ts` lines 112-170), returning the
pair `(bestPin, maxError)`; `bestPin = -1` signals that no candidate was
selected. -/
def findBestNextPin (currentPin : ℕ) (errorMatrix : List ℤ)
    (lineCache : LineCache) (lastPins : List ℕ)
    (params : StringArtParameters) : ℤ × ℤ :=
  findBestLoop errorMatrix lineCache currentPin params.numberOfPins
    (effectiveWidth params)
    (getValidTargetPins currentPin params.minDistance params.numberOfPins lastPins)
    (-1) (-1)

/-- Modelled from the spec (section 4.4): the repository imports `linspace`
from `src/lib/math/interpolation.ts`, which is not present in the snapshot.
Per the spec, linear interpolation between the two endpoints produces the
requested number of rasterized pixel sample points. -/
def linspace (a b : ℚ) (n : ℕ) : List ℤ :=
  (List.range n).map (fun i => jsRound (a + (b - a) * i / ((n : ℚ) - 1)))

/-- Embeds `precalculateLineCache` (`lineOptimization.ts` lines 17-55): for every pin
pair `(a, b)` with `b ≥ a + minDistance`, store the interpolated line
coordinates and length at both flat indices `a*numPins+b` and `b*numPins+a`.
The Euclidean pin distance comes from the absent `src/lib/math/geometry.ts`
module and is passed in as `calculatePinDistance`.
The pair list iterated by its double loop (lines 29-30: every `(a, b)` with
`b ≥ a + minDistance`) is `cachePairs` and the loop body is `cacheStep`. -/
def cachePairs (numPins minDistance : ℕ) : List (ℕ × ℕ) :=
  (List.range numPins).flatMap (fun a =>
    (List.range' (a + minDistance) (numPins - (a + minDistance))).map
      (fun b => (a, b)))

def cacheStep (calculatePinDistance : PinCoordinate → PinCoordinate → ℚ)
    (pinCoords : List PinCoordinate) (cache : LineCache) (ab : ℕ × ℕ) :
    LineCache :=
  let numPins := pinCoords.length
  let a := ab.1
  let b := ab.2
  let p0 := pinCoords.getD a (0, 0)
  let p1 := pinCoords.getD b (0, 0)
  let distance := (⌊calculatePinDistance p0 p1⌋).toNat
  let xs := linspace (p0.1 : ℚ) (p1.1 : ℚ) distance
  let ys := linspace (p0.2 : ℚ) (p1.2 : ℚ) distance
  let indexAB := a * numPins + b
  let indexBA := b * numPins + a
  { x := fun i => if i = indexAB ∨ i = indexBA then some xs else cache.x i
    y := fun i => if i = indexAB ∨ i = indexBA then some ys else cache.y i
    length := fun i =>
      if i = indexAB ∨ i = indexBA then (distance : ℤ) else cache.length i
    weight := cache.weight }

def precalculateLineCache (calculatePinDistance : PinCoordinate → PinCoordinate → ℚ)
    (pinCoords : List PinCoordinate) (minDistance : ℕ) : LineCache :=
  (cachePairs pinCoords.length minDistance).foldl
    (cacheStep calculatePinDistance pinCoords)
    { x := fun _ => none, y := fun _ => none,
      length := fun _ => 0, weight := fun _ => 1 }

/-- Mutable state of the optimization loop of `optimizeStringArt`
(`lineOptimization.ts` lines 186-189). -/
structure OptState where
  errorMatrix : List ℤ
  lineSequence : List ℕ
  currentPin : ℕ
  totalThreadLength : ℚ
  lastPins : List ℕ

/-- Initial optimizer state (`lineOptimization.ts` lines 186-191): current pin
0, sequence `[0]`, zero thread length, empty recent-pins FIFO. -/
def initState (errorMatrix : List ℤ) : OptState :=
  { errorMatrix := errorMatrix, lineSequence := [0], currentPin := 0,
    totalThreadLength := 0, lastPins := [] }

/-- Thread-length scale factor (`lineOptimization.ts` lines 214-219):
`hoopDiameter / imgSize` for circles, `max(width, height) / imgSize` for
rectangles with truthy dimensions. -/
def threadScaleFactor (params : StringArtParameters) : ℚ :=
  match params.shape, params.width, params.height with
  | Shape.rectangle, some w, some h =>
      if w ≠ 0 ∧ h ≠ 0 then max w h / (params.imgSize : ℚ)
      else params.hoopDiameter / (params.imgSize : ℚ)
  | _, _, _ => params.hoopDiameter / (params.imgSize : ℚ)

/-- One iteration of the optimization loop (`lineOptimization.ts` lines
221-258): find the best next pin; on `-1` stop (`none`), otherwise append it
to the sequence, apply the line mask, accumulate thread length, update the
20-entry recent-pins FIFO and move to the chosen pin. -/
def optimizeStep (calculatePinDistance : PinCoordinate → PinCoordinate → ℚ)
    (pinCoords : List PinCoordinate) (lineCache : LineCache)
    (params : StringArtParameters) (s : OptState) : Option OptState :=
  let bestPin :=
    (findBestNextPin s.currentPin s.errorMatrix lineCache s.lastPins params).1
  if bestPin = -1 then none
  else
    let bp := bestPin.toNat
    let cacheIndex := bp * params.numberOfPins + s.currentPin
    let errorMatrix' :=
      match lineCache.x cacheIndex, lineCache.y cacheIndex with
      | some xs, some ys =>
          applyLineMask s.errorMatrix xs ys params.lineWeight
            (effectiveWidth params)
      | _, _ => s.errorMatrix
    let distance :=
      calculatePinDistance (pinCoords.getD s.currentPin (0, 0))
        (pinCoords.getD bp (0, 0))
    let pushed := s.lastPins ++ [bp]
    some
      { errorMatrix := errorMatrix'
        lineSequence := s.lineSequence ++ [bp]
        currentPin := bp
        totalThreadLength :=
          s.totalThreadLength + distance * threadScaleFactor params
        lastPins := if 20 < pushed.length then pushed.tail else pushed }

/-- The optimization loop, iterated up to the given number of lines; a step
returning `none` (best pin `-1`) breaks out early with the current state. -/
def optimizeLoop (calculatePinDistance : PinCoordinate → PinCoordinate → ℚ)
    (pinCoords : List PinCoordinate) (lineCache : LineCache)
    (params : StringArtParameters) : ℕ → OptState → OptState
  | 0, s => s
  | k + 1, s =>
      match optimizeStep calculatePinDistance pinCoords lineCache params s with
      | none => s
      | some s' =>
          optimizeLoop calculatePinDistance pinCoords lineCache params k s'

/-- Embeds `optimizeStringArt` (`lineOptimization.ts` lines 176-285), with the
progress callback and cooperative yielding (IO only) dropped: run
`numberOfLines` loop iterations from the initial state and return the pin
sequence and total thread length. -/
def optimizeStringArt (calculatePinDistance : PinCoordinate → PinCoordinate → ℚ)
    (errorMatrix : List ℤ) (pinCoords : List PinCoordinate)
    (lineCache : LineCache) (params : StringArtParameters) : List ℕ × ℚ :=
  let final :=
    optimizeLoop calculatePinDistance pinCoords lineCache params
      params.numberOfLines (initState errorMatrix)
  (final.lineSequence, final.totalThreadLength)

/-! Section: Rectangular pin layout (`pinCalculation.ts` lines 35-158) -/

/-- Pixel width of the cropped rectangle (`pinCalculation.ts` lines 45-59):
`imgSize` for landscape, `round(imgSize * aspectRatio)` for portrait, at
least 1. -/
def rectPixelWidth (imgSize : ℕ) (width height : ℚ) : ℤ :=
  if 1 ≤ width / height then max 1 (imgSize : ℤ)
  else max 1 (jsRound ((imgSize : ℚ) * (width / height)))

/-- Pixel height of the cropped rectangle (`pinCalculation.ts` lines 45-60). -/
def rectPixelHeight (imgSize : ℕ) (width height : ℚ) : ℤ :=
  if 1 ≤ width / height then max 1 (jsRound ((imgSize : ℚ) / (width / height)))
  else max 1 (imgSize : ℤ)

/-- Embeds `targetHalfPins * (width / totalUnits)` (`pinCalculation.ts` line 88). -/
def rectRawHalfW (numberOfPins : ℕ) (width height : ℚ) : ℚ :=
  ((numberOfPins : ℚ) / 2) * (width / (width + height))

/-- Embeds `targetHalfPins * (height / totalUnits)` (`pinCalculation.ts` line 89). -/
def rectRawHalfH (numberOfPins : ℕ) (width height : ℚ) : ℚ :=
  ((numberOfPins : ℚ) / 2) * (height / (width + height))

/-- The rounding remainder distributed to one side
(`pinCalculation.ts` line 94). -/
def rectRemainder (numberOfPins : ℕ) (width height : ℚ) : ℤ :=
  jsRound ((numberOfPins : ℚ) / 2 -
    ((⌊rectRawHalfW numberOfPins width height⌋ : ℚ) +
      (⌊rectRawHalfH numberOfPins width height⌋ : ℚ)))

/-- Number of intervals on the horizontal sides (`pinCalculation.ts` lines
91-106): floor of the proportional share, plus the remainder when the width
side has the larger fractional part, at least 1. (The spacing-based values
computed at lines 73-78 are overwritten at lines 106-107 before use.) -/
def rectPinsW (numberOfPins : ℕ) (width height : ℚ) : ℕ :=
  let rawW := rectRawHalfW numberOfPins width height
  let rawH := rectRawHalfH numberOfPins width height
  let baseW := ⌊rawW⌋
  let remainder := rectRemainder numberOfPins width height
  (max 1 (if 0 < remainder ∧ Int.fract rawH ≤ Int.fract rawW
    then baseW + remainder else baseW)).toNat

/-- Number of intervals on the vertical sides (`pinCalculation.ts` lines
91-107). -/
def rectPinsH (numberOfPins : ℕ) (width height : ℚ) : ℕ :=
  let rawW := rectRawHalfW numberOfPins width height
  let rawH := rectRawHalfH numberOfPins width height
  let baseH := ⌊rawH⌋
  let remainder := rectRemainder numberOfPins width height
  (max 1 (if 0 < remainder ∧ ¬ Int.fract rawH ≤ Int.fract rawW
    then baseH + remainder else baseH)).toNat

/-- Embeds `calculateRectangularPins` (`pinCalculation.ts` lines 35-158): traverse
the perimeter clockwise — top left→right including both corners, right
top→bottom interior only, bottom right→left including both corners, left
bottom→top interior only. -/
def calculateRectangularPins (numberOfPins imgSize : ℕ)
    (width height : ℚ) : List PinCoordinate :=
  let pinsW := rectPinsW numberOfPins width height
  let pinsH := rectPinsH numberOfPins width height
  let maxX := rectPixelWidth imgSize width height - 1
  let maxY := rectPixelHeight imgSize width height - 1
  ((List.range (pinsW + 1)).map
      (fun (i : ℕ) => ((jsRound (((i : ℚ) / (pinsW : ℚ)) * (maxX : ℚ)), (0 : ℤ)) :
        PinCoordinate)))
    ++ ((List.range' 1 (pinsH - 1)).map
      (fun (i : ℕ) => ((maxX, jsRound (((i : ℚ) / (pinsH : ℚ)) * (maxY : ℚ))) :
        PinCoordinate)))
    ++ ((List.range (pinsW + 1)).map
      (fun (i : ℕ) => ((jsRound ((1 - (i : ℚ) / (pinsW : ℚ)) * (maxX : ℚ)), maxY) :
        PinCoordinate)))
    ++ ((List.range' 1 (pinsH - 1)).map
      (fun (i : ℕ) => (((0 : ℤ), jsRound ((1 - (i : ℚ) / (pinsH : ℚ)) * (maxY : ℚ))) :
        PinCoordinate)))

/-! Section: Yarn model (`yarnConversion.ts`, `types/yarn.ts`) -/

/-- Embeds `YarnType` (`types/yarn.ts`). -/
inductive YarnType where
  | ticket
  | nm
  | tex
  | dtex
  | denier
  | length_weight
  | diameter_mm
deriving DecidableEq

/-- Embeds `YarnMaterial` (`types/yarn.ts`). -/
inductive YarnMaterial where
  | polyester
  | cotton
  | nylon
  | unknown
deriving DecidableEq

/-- Embeds `YarnSpec` (`types/yarn.ts`). -/
structure YarnSpec where
  type : YarnType
  material : YarnMaterial
  k : Option ℚ := none
  overrideDiameterMM : Option ℚ := none
  ticketNo : Option ℚ := none
  nm : Option ℚ := none
  ply : Option ℚ := none
  tex : Option ℚ := none
  dtex : Option ℚ := none
  denier : Option ℚ := none
  meters : Option ℚ := none
  grams : Option ℚ := none
  diameterMM : Option ℚ := none

/-- Embeds `const safePly = ply || 1` (`yarnConversion.ts`): JS truthiness, so a
missing or zero ply becomes 1. -/
def yarnSafePly (spec : YarnSpec) : ℚ :=
  match spec.ply with
  | some p => if p = 0 then 1 else p
  | none => 1

/-- Embeds `normalizeToTex` (`yarnConversion.ts` lines 279-326): normalize a yarn
specification to canonical Tex (g/1000m). JS falsiness guards (`tex || 0`,
`if (!nm || nm === 0) return 0`, ...) are modelled exactly. -/
def normalizeToTex (spec : YarnSpec) : ℚ :=
  let safePly := yarnSafePly spec
  match spec.type with
  | YarnType.tex => spec.tex.getD 0
  | YarnType.dtex => spec.dtex.getD 0 * safePly / 10
  | YarnType.denier => spec.denier.getD 0 * safePly / 9
  | YarnType.nm =>
      match spec.nm with
      | none => 0
      | some v => if v = 0 then 0 else 1000 * safePly / v
  | YarnType.length_weight =>
      match spec.meters with
      | none => 0
      | some m => if m = 0 then 0 else spec.grams.getD 0 / m * 1000
  | YarnType.ticket =>
      match spec.ticketNo with
      | none => 0
      | some t => if t = 0 then 0 else 3000 / t
  | YarnType.diameter_mm => 0

/-! Section: Engine entry point (`stringArtEngine.ts`) -/

/-- Embeds `Partial<StringArtParameters>`: the caller-supplied parameter object, every
field optional. Numeric fields are kept as `ℚ` because validation inspects
non-integer values. -/
structure EngineParamsInput where
  shape : Option Shape := none
  numberOfPins : Option ℚ := none
  numberOfLines : Option ℚ := none
  lineWeight : Option ℚ := none
  minDistance : Option ℚ := none
  imgSize : Option ℚ := none
  scale : Option ℚ := none
  hoopDiameter : Option ℚ := none
  width : Option ℚ := none
  height : Option ℚ := none
  yarnSpec : Option YarnSpec := none

/-- Embeds `Number.isInteger` on a rational. -/
def isIntegerValue (v : ℚ) : Prop := v.den = 1

instance (v : ℚ) : Decidable (isIntegerValue v) := by
  unfold isIntegerValue
  infer_instance

/-- Messages pushed for `numberOfPins` (`stringArtEngine.ts` lines 274-278). -/
def numberOfPinsErrors (o : Option ℚ) : List String :=
  match o with
  | none => []
  | some v =>
      (if v < 3 then ["Number of pins must be at least 3"] else [])
        ++ (if 1000 < v then ["Number of pins should not exceed 1000"] else [])
        ++ (if ¬ isIntegerValue v then ["Number of pins must be an integer"] else [])

/-- Messages pushed for `numberOfLines` (`stringArtEngine.ts` lines 280-284). -/
def numberOfLinesErrors (o : Option ℚ) : List String :=
  match o with
  | none => []
  | some v =>
      (if v < 1 then ["Number of lines must be at least 1"] else [])
        ++ (if 10000 < v then ["Number of lines should not exceed 10000"] else [])
        ++ (if ¬ isIntegerValue v then ["Number of lines must be an integer"] else [])

/-- Messages pushed for `lineWeight` (`stringArtEngine.ts` lines 286-289). -/
def lineWeightErrors (o : Option ℚ) : List String :=
  match o with
  | none => []
  | some v =>
      (if v < 1 then ["Line weight must be at least 1"] else [])
        ++ (if 100 < v then ["Line weight should not exceed 100"] else [])

/-- Messages pushed for `minDistance` (`stringArtEngine.ts` lines 291-294). -/
def minDistanceErrors (o : Option ℚ) : List String :=
  match o with
  | none => []
  | some v =>
      (if v < 1 then ["Minimum distance must be at least 1"] else [])
        ++ (if 50 < v then ["Minimum distance should not exceed 50"] else [])

/-- Messages pushed for `imgSize` (`stringArtEngine.ts` lines 296-300). -/
def imgSizeErrors (o : Option ℚ) : List String :=
  match o with
  | none => []
  | some v =>
      (if v < 100 then ["Image size must be at least 100"] else [])
        ++ (if 2000 < v then ["Image size should not exceed 2000"] else [])
        ++ (if ¬ isIntegerValue v then ["Image size must be an integer"] else [])

/-- Embeds `validateStringArtParameters` (`stringArtEngine.ts` lines 268-306):
`(isValid, errors)` where `errors` collects the human-readable messages in
push order. -/
def validateStringArtParameters (p : EngineParamsInput) : Bool × List String :=
  let errors :=
    numberOfPinsErrors p.numberOfPins ++ numberOfLinesErrors p.numberOfLines
      ++ lineWeightErrors p.lineWeight ++ minDistanceErrors p.minDistance
      ++ imgSizeErrors p.imgSize
  (errors.isEmpty, errors)

/-- The parameters object after the default merge, as built by
`generateStringArt`. -/
structure ResolvedParameters where
  shape : Shape
  numberOfPins : ℚ
  numberOfLines : ℚ
  lineWeight : ℚ
  minDistance : ℚ
  imgSize : ℚ
  scale : ℚ
  hoopDiameter : ℚ
  width : Option ℚ
  height : Option ℚ
  yarnSpec : Option YarnSpec

/-- The parameter merge of `generateStringArt` (`stringArtEngine.ts` lines
176-199). `yarnLineWeight` stands for the composition of
`calculateThreadThicknessMM` and `calculateLineWeight` (`yarnConversion.ts`;
they involve a real square root and are never invoked when no yarn
specification is supplied): it receives the yarn spec, the resolved hoop
diameter and the resolved image size, as at lines 179-183. -/
def resolveParameters (yarnLineWeight : YarnSpec → ℚ → ℚ → ℚ)
    (params : EngineParamsInput) : ResolvedParameters :=
  let lineWeight :=
    match params.yarnSpec with
    | some spec =>
        yarnLineWeight spec (params.hoopDiameter.getD ((500 : ℚ) * 25.4))
          (params.imgSize.getD 500)
    | none => params.lineWeight.getD 20
  { shape := params.shape.getD Shape.circle
    numberOfPins := params.numberOfPins.getD 288
    numberOfLines := params.numberOfLines.getD 4000
    lineWeight := lineWeight
    minDistance := params.minDistance.getD 20
    imgSize := params.imgSize.getD 500
    scale := params.scale.getD 20
    hoopDiameter := params.hoopDiameter.getD ((500 : ℚ) * 25.4)
    width := params.width
    height := params.height
    yarnSpec := params.yarnSpec }

/-- A ticket-number yarn specification used as a concrete test input. -/
def ticket120Spec : YarnSpec where
  type := YarnType.ticket
  material := YarnMaterial.polyester
  ticketNo := some 120

/-- An input with only the line weight supplied, at the value 150. -/
def lineWeight150Input : EngineParamsInput where
  lineWeight := some 150

/-- A small concrete parameter set: 3 pins, minimum distance 1. -/
def threePinParams : StringArtParameters where
  shape := Shape.circle
  numberOfPins := 3
  numberOfLines := 1
  lineWeight := 20
  minDistance := 1
  imgSize := 500
  scale := 20
  hoopDiameter := 500
  width := none
  height := none

/-- Three concrete pin coordinates. -/
def threePinCoords : List PinCoordinate := [(0, 0), (1, 0), (0, 1)]

/-- The pin-sequence invariant maintained by the optimization loop: the
current pin is in range and is the last sequence entry, every entry is in
range, and adjacent entries are distinct with circular distance at least the
minimum. -/
def seqInvariant (n minD : ℕ) (s : OptState) : Prop :=
  s.currentPin < n ∧
  s.lineSequence ≠ [] ∧
  s.lineSequence.getLast? = some s.currentPin ∧
  (∀ p ∈ s.lineSequence, p < n) ∧
  s.lineSequence.Chain'
    (fun a b => a ≠ b ∧ minD ≤ calculateMinPinDistance a b n)

/-- Parameters with a single pin: the candidate range is empty from the very
first step. -/
def onePinParams : StringArtParameters where
  shape := Shape.circle
  numberOfPins := 1
  numberOfLines := 1
  lineWeight := 20
  minDistance := 1
  imgSize := 500
  scale := 20
  hoopDiameter := 500
  width := none
  height := none

/-- A line cache with no populated entries. -/
def emptyCache : LineCache where
  x := fun _ => none
  y := fun _ => none
  length := fun _ => 0
  weight := fun _ => 1


/-- A validated rectangular parameter set requesting 5 pins on a 100 by 100
frame; the layout routine returns 6 actual pin coordinates for it. -/
def rectParams5 : StringArtParameters where
  shape := Shape.rectangle
  numberOfPins := 5
  numberOfLines := 2
  lineWeight := 20
  minDistance := 1
  imgSize := 500
  scale := 20
  hoopDiameter := 500
  width := some 100
  height := some 100

/-- The actual pin coordinates of `rectParams5` (6 of them, not 5). -/
def rect5Coords : List PinCoordinate := calculateRectangularPins 5 500 100 100

/-- The line cache a `rectParams5` run precomputes over `rect5Coords`. -/
def rect5Cache : LineCache := precalculateLineCache (fun _ _ => 0) rect5Coords 1

/-! Section: Theorems -/

theorem jsRound_intCast (m : ℤ) : jsRound (m : ℚ) = m := by
  unfold jsRound
  rw [Int.floor_int_add]
  norm_num

theorem jsRound_zero : jsRound 0 = 0 := by
  simpa using jsRound_intCast 0

theorem clampErrorValue_mem (v : ℤ) :
    0 ≤ clampErrorValue v ∧ clampErrorValue v ≤ 255 := by
  unfold clampErrorValue
  dsimp only
  split <;> split <;> omega

/-- Membership in the candidate list is exactly: the pin sits at a circular
offset in `[minDistance, numberOfPins - minDistance)` from the current pin and
is not excluded. -/
theorem getValidTargetPins_mem_iff (currentPin minDistance numberOfPins : ℕ)
    (excludePins : List ℕ) (p : ℕ) :
    p ∈ getValidTargetPins currentPin minDistance numberOfPins excludePins ↔
      (∃ o, minDistance ≤ o ∧ o + minDistance < numberOfPins ∧
        p = (currentPin + o) % numberOfPins) ∧ p ∉ excludePins := by
  unfold getValidTargetPins getPinAtOffset
  rw [List.mem_filter]
  simp only [List.mem_map, List.mem_range'_1, decide_eq_true_eq]
  constructor
  · rintro ⟨⟨o, ⟨ho₁, ho₂⟩, rfl⟩, hex⟩
    exact ⟨⟨o, ho₁, by omega, rfl⟩, hex⟩
  · rintro ⟨⟨o, ho₁, ho₂, rfl⟩, hex⟩
    exact ⟨⟨o, ⟨ho₁, by omega⟩, rfl⟩, hex⟩


theorem lineMaskStep_range (lw w : ℤ) (m : List ℤ) (p : ℤ × ℤ)
    (hm : ∀ e ∈ m, 0 ≤ e ∧ e ≤ 255) :
    ∀ e ∈ lineMaskStep lw w m p, 0 ≤ e ∧ e ≤ 255 := by
  intro e he
  unfold lineMaskStep at he
  dsimp only at he
  split at he
  · rcases List.mem_or_eq_of_mem_set he with h | h
    · exact hm e h
    · subst h
      exact clampErrorValue_mem _
  · exact hm e he

theorem foldl_lineMaskStep_range (lw w : ℤ) (l : List (ℤ × ℤ)) :
    ∀ m : List ℤ, (∀ e ∈ m, 0 ≤ e ∧ e ≤ 255) →
      ∀ e ∈ l.foldl (lineMaskStep lw w) m, 0 ≤ e ∧ e ≤ 255 := by
  induction l with
  | nil => intro m hm; simpa using hm
  | cons p rest ih =>
      intro m hm
      simpa using ih (lineMaskStep lw w m p) (lineMaskStep_range lw w m p hm)

/-- C3: every entry of the error matrix lies in [0,255] at all times: the
matrix starts as `255 - pixelValue` with byte pixel values, which
lands in [0,255], and applying a line (`applyLineMask`) keeps every entry in
[0,255] because every written entry is clamped back into that range. -/
theorem errorMatrix_always_in_range :
    (∀ px : List ℤ, (∀ v ∈ px, 0 ≤ v ∧ v ≤ 255) →
      ∀ e ∈ createErrorMatrix px, 0 ≤ e ∧ e ≤ 255) ∧
    (∀ (em xs ys : List ℤ) (lineWeight imgWidth : ℤ),
      (∀ e ∈ em, 0 ≤ e ∧ e ≤ 255) →
      ∀ e ∈ applyLineMask em xs ys lineWeight imgWidth, 0 ≤ e ∧ e ≤ 255) := by
  constructor
  · intro px hpx e he
    unfold createErrorMatrix at he
    rcases List.mem_map.mp he with ⟨v, hv, rfl⟩
    have := hpx v hv
    omega
  · intro em xs ys lw w hem e he
    exact foldl_lineMaskStep_range lw w (xs.zip ys) em hem e he

theorem errorMatrix_always_in_range_witness :
    (∀ v ∈ [(0 : ℤ), 128, 255], 0 ≤ v ∧ v ≤ 255) ∧
      (∀ e ∈ createErrorMatrix [(0 : ℤ), 128, 255], 0 ≤ e ∧ e ≤ 255) ∧
      (∀ e ∈ applyLineMask [(200 : ℤ), 3] [0, 1] [0, 0] 20 1, 0 ≤ e ∧ e ≤ 255) := by
  refine ⟨by decide, errorMatrix_always_in_range.1 _ (by decide), ?_⟩
  exact errorMatrix_always_in_range.2 [(200 : ℤ), 3] [0, 1] [0, 0] 20 1 (by decide)

theorem lineMaskStep_length (lw w : ℤ) (m : List ℤ) (p : ℤ × ℤ) :
    (lineMaskStep lw w m p).length = m.length := by
  unfold lineMaskStep
  dsimp only
  split
  · simp
  · rfl

theorem lineMaskStep_getD_untouched (lw w : ℤ) (m : List ℤ) (p : ℤ × ℤ)
    (k : ℕ) (hk : p.2 * w + p.1 ≠ (k : ℤ)) :
    (lineMaskStep lw w m p).getD k 0 = m.getD k 0 := by
  unfold lineMaskStep
  dsimp only
  split
  · rename_i hin
    have hne : (p.2 * w + p.1).toNat ≠ k := by omega
    simp only [List.getD, List.get?_eq_getElem?]
    rw [List.getElem?_set_ne hne]
  · rfl

theorem foldl_lineMaskStep_frame (lw w : ℤ) (l : List (ℤ × ℤ)) :
    ∀ m : List ℤ,
      (l.foldl (lineMaskStep lw w) m).length = m.length ∧
      ∀ k : ℕ, (∀ p ∈ l, p.2 * w + p.1 ≠ (k : ℤ)) →
        (l.foldl (lineMaskStep lw w) m).getD k 0 = m.getD k 0 := by
  induction l with
  | nil => intro m; exact ⟨rfl, fun _ _ => rfl⟩
  | cons p rest ih =>
      intro m
      constructor
      · rw [List.foldl_cons, (ih (lineMaskStep lw w m p)).1, lineMaskStep_length]
      · intro k hk
        rw [List.foldl_cons,
          (ih (lineMaskStep lw w m p)).2 k
            (fun q hq => hk q (List.mem_cons_of_mem _ hq))]
        exact lineMaskStep_getD_untouched lw w m p k (hk p (List.mem_cons_self _ _))

/-- C10: applying a line to the error matrix modifies only the entries at the
flat indices `ys[i]*imgWidth + xs[i]` of the sampled points of that line
(those within array bounds); it preserves the matrix length, and every entry
whose flat index is hit by no sampled point is unchanged. -/
theorem applyLineMask_frame (em xs ys : List ℤ) (lineWeight imgWidth : ℤ) :
    (applyLineMask em xs ys lineWeight imgWidth).length = em.length ∧
    ∀ k : ℕ, (∀ p ∈ xs.zip ys, p.2 * imgWidth + p.1 ≠ (k : ℤ)) →
      (applyLineMask em xs ys lineWeight imgWidth).getD k 0 = em.getD k 0 :=
  foldl_lineMaskStep_frame lineWeight imgWidth (xs.zip ys) em

theorem applyLineMask_frame_witness :
    (applyLineMask [(200 : ℤ), 7] [0] [0] 20 1).length = 2 ∧
      (∀ p ∈ ([(0 : ℤ)].zip [(0 : ℤ)]), p.2 * 1 + p.1 ≠ ((1 : ℕ) : ℤ)) ∧
      (applyLineMask [(200 : ℤ), 7] [0] [0] 20 1).getD 1 0 = 7 := by
  refine ⟨(applyLineMask_frame [(200 : ℤ), 7] [0] [0] 20 1).1, by decide, ?_⟩
  have h := (applyLineMask_frame [(200 : ℤ), 7] [0] [0] 20 1).2 1 (by decide)
  simpa using h

/-- C7: yarn normalization to canonical Tex follows the fixed formulas:
`Tex = 3000/ticketNo` (ticket), `Tex = 1000·ply/Nm` (Nm), identity for tex,
`Tex = dtex·ply/10` (dtex), `Tex = denier·ply/9` (denier), and
`Tex = (grams/meters)·1000` (length/weight pair), with ply defaulting to 1
when absent. -/
theorem normalizeToTex_formulas (spec : YarnSpec) :
    (spec.ply = none → yarnSafePly spec = 1) ∧
    (spec.type = YarnType.ticket → ∀ t, spec.ticketNo = some t → t ≠ 0 →
      normalizeToTex spec = 3000 / t) ∧
    (spec.type = YarnType.nm → ∀ v, spec.nm = some v → v ≠ 0 →
      normalizeToTex spec = 1000 * yarnSafePly spec / v) ∧
    (spec.type = YarnType.tex → ∀ t, spec.tex = some t →
      normalizeToTex spec = t) ∧
    (spec.type = YarnType.dtex → ∀ d, spec.dtex = some d →
      normalizeToTex spec = d * yarnSafePly spec / 10) ∧
    (spec.type = YarnType.denier → ∀ d, spec.denier = some d →
      normalizeToTex spec = d * yarnSafePly spec / 9) ∧
    (spec.type = YarnType.length_weight → ∀ m g, spec.meters = some m →
      m ≠ 0 → spec.grams = some g → normalizeToTex spec = g / m * 1000) := by
  refine ⟨fun h => by simp [yarnSafePly, h], ?_, ?_, ?_, ?_, ?_, ?_⟩
  · intro ht t hsome hne
    simp [normalizeToTex, ht, hsome, hne]
  · intro ht v hsome hne
    simp [normalizeToTex, ht, hsome, hne]
  · intro ht t hsome
    simp [normalizeToTex, ht, hsome]
  · intro ht d hsome
    simp [normalizeToTex, ht, hsome]
  · intro ht d hsome
    simp [normalizeToTex, ht, hsome]
  · intro ht m g hm hne hg
    simp [normalizeToTex, ht, hm, hne, hg]

theorem normalizeToTex_formulas_witness :
    normalizeToTex ticket120Spec = 25 := by
  have h := (normalizeToTex_formulas ticket120Spec).2.1 rfl 120 rfl (by norm_num)
  rw [h]
  norm_num

/-- C9 counterexample: with all fields unset, the merged parameters carry a
hoop diameter of `500 * 25.4 = 12700`, not the documented 500 mm
(`stringArtEngine.ts` line 195 applies a factor of 25.4 to
`DEFAULT_CONFIG.HOOP_DIAMETER`). -/
theorem resolveParameters_hoopDiameter_not_500 :
    (resolveParameters (fun _ _ _ => 0) {}).hoopDiameter = 12700 ∧
      (500 : ℚ) < 12700 := by
  constructor
  · norm_num [resolveParameters]
  · norm_num

/-- C9 (amended): with a field left unset, that field takes its default:
`shape = circle`, `numberOfPins = 288`, `numberOfLines = 4000`,
`lineWeight = 20` (when no yarn spec is supplied), `minDistance = 20`,
`imgSize = 500`, and `hoopDiameter = 500 · 25.4 = 12700` (not 500). -/
theorem resolveParameters_defaults (yarnLineWeight : YarnSpec → ℚ → ℚ → ℚ)
    (p : EngineParamsInput)
    (hShape : p.shape = none) (hPins : p.numberOfPins = none)
    (hLines : p.numberOfLines = none) (hWeight : p.lineWeight = none)
    (hYarn : p.yarnSpec = none) (hMinDist : p.minDistance = none)
    (hImg : p.imgSize = none) (hHoop : p.hoopDiameter = none) :
    (resolveParameters yarnLineWeight p).shape = Shape.circle ∧
    (resolveParameters yarnLineWeight p).numberOfPins = 288 ∧
    (resolveParameters yarnLineWeight p).numberOfLines = 4000 ∧
    (resolveParameters yarnLineWeight p).lineWeight = 20 ∧
    (resolveParameters yarnLineWeight p).minDistance = 20 ∧
    (resolveParameters yarnLineWeight p).imgSize = 500 ∧
    (resolveParameters yarnLineWeight p).hoopDiameter = 12700 := by
  simp [resolveParameters, hShape, hPins, hLines, hWeight, hYarn, hMinDist,
    hImg, hHoop]
  norm_num

theorem resolveParameters_defaults_witness :
    (resolveParameters (fun _ _ _ => 0) {}).shape = Shape.circle ∧
    (resolveParameters (fun _ _ _ => 0) {}).numberOfPins = 288 ∧
    (resolveParameters (fun _ _ _ => 0) {}).numberOfLines = 4000 ∧
    (resolveParameters (fun _ _ _ => 0) {}).lineWeight = 20 ∧
    (resolveParameters (fun _ _ _ => 0) {}).minDistance = 20 ∧
    (resolveParameters (fun _ _ _ => 0) {}).imgSize = 500 ∧
    (resolveParameters (fun _ _ _ => 0) {}).hoopDiameter = 12700 :=
  resolveParameters_defaults (fun _ _ _ => 0) {} rfl rfl rfl rfl rfl rfl rfl rfl

/-- C8 counterexample: a supplied line weight of 150 lies inside the range
[1,255] the claim calls valid, yet validation reports an error for it (the
code's upper bound is 100, `stringArtEngine.ts` line 288). -/
theorem validate_lineWeight_150_rejected :
    ((1 : ℚ) ≤ 150 ∧ (150 : ℚ) ≤ 255) ∧
      (validateStringArtParameters lineWeight150Input).2 =
        ["Line weight should not exceed 100"] := by
  constructor
  · norm_num
  · norm_num [validateStringArtParameters, lineWeight150Input,
      numberOfPinsErrors, numberOfLinesErrors, lineWeightErrors,
      minDistanceErrors, imgSizeErrors]

theorem mem_numberOfPinsErrors (o : Option ℚ) (s : String)
    (hs : s ∈ numberOfPinsErrors o) :
    s = "Number of pins must be at least 3" ∨
      s = "Number of pins should not exceed 1000" ∨
      s = "Number of pins must be an integer" := by
  cases o with
  | none => simp [numberOfPinsErrors] at hs
  | some v =>
      simp only [numberOfPinsErrors, List.mem_append] at hs
      rcases hs with (h | h) | h <;> split at h <;> simp_all

theorem mem_numberOfLinesErrors (o : Option ℚ) (s : String)
    (hs : s ∈ numberOfLinesErrors o) :
    s = "Number of lines must be at least 1" ∨
      s = "Number of lines should not exceed 10000" ∨
      s = "Number of lines must be an integer" := by
  cases o with
  | none => simp [numberOfLinesErrors] at hs
  | some v =>
      simp only [numberOfLinesErrors, List.mem_append] at hs
      rcases hs with (h | h) | h <;> split at h <;> simp_all

theorem mem_minDistanceErrors (o : Option ℚ) (s : String)
    (hs : s ∈ minDistanceErrors o) :
    s = "Minimum distance must be at least 1" ∨
      s = "Minimum distance should not exceed 50" := by
  cases o with
  | none => simp [minDistanceErrors] at hs
  | some v =>
      simp only [minDistanceErrors, List.mem_append] at hs
      rcases hs with h | h <;> split at h <;> simp_all

theorem mem_imgSizeErrors (o : Option ℚ) (s : String)
    (hs : s ∈ imgSizeErrors o) :
    s = "Image size must be at least 100" ∨
      s = "Image size should not exceed 2000" ∨
      s = "Image size must be an integer" := by
  cases o with
  | none => simp [imgSizeErrors] at hs
  | some v =>
      simp only [imgSizeErrors, List.mem_append] at hs
      rcases hs with (h | h) | h <;> split at h <;> simp_all

theorem mem_lineWeightErrors_iff (v : ℚ) (s : String) :
    s ∈ lineWeightErrors (some v) ↔
      (s = "Line weight must be at least 1" ∧ v < 1) ∨
        (s = "Line weight should not exceed 100" ∧ 100 < v) := by
  simp only [lineWeightErrors, List.mem_append]
  constructor
  · rintro (h | h) <;> split at h <;> simp_all
  · rintro (⟨rfl, hv⟩ | ⟨rfl, hv⟩)
    · left
      simp [hv]
    · right
      simp [hv]

/-- C8 (amended): validation reports a line weight as erroneous exactly when
it is outside [1,100] (not [1,255]): a supplied line weight in [1,100]
produces no line-weight message, and one outside [1,100] puts a
human-readable line-weight message into the returned error list (no
exception is thrown; validation is a total function into a message list). -/
theorem validate_lineWeight_range (p : EngineParamsInput) (v : ℚ)
    (h : p.lineWeight = some v) :
    ("Line weight must be at least 1" ∈ (validateStringArtParameters p).2 ∨
      "Line weight should not exceed 100" ∈ (validateStringArtParameters p).2) ↔
      (v < 1 ∨ 100 < v) := by
  have expand : (validateStringArtParameters p).2 =
      numberOfPinsErrors p.numberOfPins ++ numberOfLinesErrors p.numberOfLines
        ++ lineWeightErrors p.lineWeight ++ minDistanceErrors p.minDistance
        ++ imgSizeErrors p.imgSize := rfl
  rw [expand, h]
  constructor
  · rintro (hm | hm) <;>
      simp only [List.mem_append] at hm <;>
      rcases hm with (((hm | hm) | hm) | hm) | hm
    · rcases mem_numberOfPinsErrors _ _ hm with h' | h' | h' <;> simp_all
    · rcases mem_numberOfLinesErrors _ _ hm with h' | h' | h' <;> simp_all
    · rcases (mem_lineWeightErrors_iff v _).mp hm with ⟨_, h'⟩ | ⟨h', _⟩
      · left
        exact h'
      · simp at h'
    · rcases mem_minDistanceErrors _ _ hm with h' | h' <;> simp_all
    · rcases mem_imgSizeErrors _ _ hm with h' | h' | h' <;> simp_all
    · rcases mem_numberOfPinsErrors _ _ hm with h' | h' | h' <;> simp_all
    · rcases mem_numberOfLinesErrors _ _ hm with h' | h' | h' <;> simp_all
    · rcases (mem_lineWeightErrors_iff v _).mp hm with ⟨h', _⟩ | ⟨_, h'⟩
      · simp at h'
      · right
        exact h'
    · rcases mem_minDistanceErrors _ _ hm with h' | h' <;> simp_all
    · rcases mem_imgSizeErrors _ _ hm with h' | h' | h' <;> simp_all
  · rintro (hv | hv)
    · left
      simp only [List.mem_append]
      left
      left
      right
      exact (mem_lineWeightErrors_iff v _).mpr (Or.inl ⟨rfl, hv⟩)
    · right
      simp only [List.mem_append]
      left
      left
      right
      exact (mem_lineWeightErrors_iff v _).mpr (Or.inr ⟨rfl, hv⟩)

theorem validate_lineWeight_range_witness :
    ("Line weight must be at least 1" ∈
        (validateStringArtParameters lineWeight150Input).2 ∨
      "Line weight should not exceed 100" ∈
        (validateStringArtParameters lineWeight150Input).2) ↔
      ((150 : ℚ) < 1 ∨ 100 < (150 : ℚ)) :=
  validate_lineWeight_range lineWeight150Input 150 rfl

theorem one_le_rectPinsW (numberOfPins : ℕ) (width height : ℚ) :
    1 ≤ rectPinsW numberOfPins width height := by
  unfold rectPinsW
  dsimp only
  split <;> omega

theorem one_le_rectPinsH (numberOfPins : ℕ) (width height : ℚ) :
    1 ≤ rectPinsH numberOfPins width height := by
  unfold rectPinsH
  dsimp only
  split <;> omega

/-- C6: the rectangular pin layout returns exactly `2·(pinsW + pinsH)`
coordinates (which may differ from the requested pin count), and the four
array positions `0`, `pinsW`, `pinsW + pinsH` and `2·pinsW + pinsH`
corresponding to the geometric corners hold exactly `(0,0)`, `(maxX,0)`,
`(maxX,maxY)` and `(0,maxY)`. -/
theorem calculateRectangularPins_spec (numberOfPins imgSize : ℕ)
    (width height : ℚ) ( _hw : 0 < width) ( _hh : 0 < height)
    ( _hn : 3 ≤ numberOfPins) :
    (calculateRectangularPins numberOfPins imgSize width height).length =
      2 * (rectPinsW numberOfPins width height +
        rectPinsH numberOfPins width height) ∧
    (calculateRectangularPins numberOfPins imgSize width height)[(0 : ℕ)]? =
      some (0, 0) ∧
    (calculateRectangularPins numberOfPins imgSize width
        height)[rectPinsW numberOfPins width height]? =
      some (rectPixelWidth imgSize width height - 1, 0) ∧
    (calculateRectangularPins numberOfPins imgSize width
        height)[rectPinsW numberOfPins width height +
          rectPinsH numberOfPins width height]? =
      some (rectPixelWidth imgSize width height - 1,
        rectPixelHeight imgSize width height - 1) ∧
    (calculateRectangularPins numberOfPins imgSize width
        height)[2 * rectPinsW numberOfPins width height +
          rectPinsH numberOfPins width height]? =
      some (0, rectPixelHeight imgSize width height - 1) := by
  have hpW := one_le_rectPinsW numberOfPins width height
  have hpH := one_le_rectPinsH numberOfPins width height
  set pW := rectPinsW numberOfPins width height with hpWdef
  set pH := rectPinsH numberOfPins width height with hpHdef
  set X := rectPixelWidth imgSize width height - 1 with hXdef
  set Y := rectPixelHeight imgSize width height - 1 with hYdef
  have hcast : ((pW : ℚ)) ≠ 0 := Nat.cast_ne_zero.mpr (by omega)
  simp only [calculateRectangularPins, ← hpWdef, ← hpHdef, ← hXdef, ← hYdef]
  rw [List.append_assoc, List.append_assoc]
  refine ⟨?_, ?_, ?_, ?_, ?_⟩
  · simp only [List.length_append, List.length_map, List.length_range,
      List.length_range']
    omega
  · rw [List.getElem?_append]
    rw [if_pos (by simp only [List.length_map, List.length_range]; omega)]
    rw [List.getElem?_map, List.getElem?_range (by omega)]
    simp [jsRound_zero]
  · rw [List.getElem?_append]
    rw [if_pos (by simp only [List.length_map, List.length_range]; omega)]
    rw [List.getElem?_map, List.getElem?_range (by omega)]
    simp only [Option.map_some']
    rw [div_self hcast, one_mul, jsRound_intCast]
  · rw [List.getElem?_append]
    simp only [List.length_map, List.length_range, List.length_range']
    rw [if_neg (by omega)]
    rw [List.getElem?_append]
    simp only [List.length_map, List.length_range, List.length_range']
    rw [if_neg (by omega)]
    have hidx : pW + pH - (pW + 1) - (pH - 1) = 0 := by omega
    rw [hidx]
    rw [List.getElem?_append]
    simp only [List.length_map, List.length_range, List.length_range']
    rw [if_pos (by omega)]
    rw [List.getElem?_map, List.getElem?_range (by omega)]
    norm_num [jsRound_intCast]
  · rw [List.getElem?_append]
    simp only [List.length_map, List.length_range, List.length_range']
    rw [if_neg (by omega)]
    rw [List.getElem?_append]
    simp only [List.length_map, List.length_range, List.length_range']
    rw [if_neg (by omega)]
    have hidx : 2 * pW + pH - (pW + 1) - (pH - 1) = pW := by omega
    rw [hidx]
    rw [List.getElem?_append]
    simp only [List.length_map, List.length_range, List.length_range']
    rw [if_pos (by omega)]
    rw [List.getElem?_map, List.getElem?_range (by omega)]
    simp only [Option.map_some']
    rw [div_self hcast]
    norm_num [jsRound_zero]


theorem calculateRectangularPins_spec_witness :
    ((0 : ℚ) < 100 ∧ (3 : ℕ) ≤ 288) ∧
      (calculateRectangularPins 288 500 100 100)[(0 : ℕ)]? = some (0, 0) :=
  ⟨⟨by norm_num, by norm_num⟩,
    (calculateRectangularPins_spec 288 500 100 100 (by norm_num) (by norm_num)
      (by norm_num)).2.1⟩

theorem foldl_preserves {α γ : Type} (f : γ → α → γ) (P : γ → Prop)
    (hpres : ∀ c y, P c → P (f c y)) :
    ∀ (l : List α) (c : γ), P c → P (l.foldl f c) := by
  intro l
  induction l with
  | nil => intro c hc; exact hc
  | cons y rest ih => intro c hc; exact ih (f c y) (hpres c y hc)

theorem foldl_establishes {α γ : Type} (f : γ → α → γ) (P : γ → Prop)
    (hpres : ∀ c y, P c → P (f c y)) :
    ∀ (l : List α) (c : γ) (x : α), x ∈ l → (∀ c₀, P (f c₀ x)) →
      P (l.foldl f c) := by
  intro l
  induction l with
  | nil => intro c x hx; exact absurd hx (List.not_mem_nil x)
  | cons y rest ih =>
      intro c x hx hest
      rcases List.mem_cons.mp hx with rfl | hx'
      · exact foldl_preserves f P hpres rest (f c x) (hest c)
      · exact ih (f c y) x hx' hest

theorem mem_cachePairs (numPins minDistance a b : ℕ) :
    (a, b) ∈ cachePairs numPins minDistance ↔
      a < numPins ∧ a + minDistance ≤ b ∧ b < numPins := by
  unfold cachePairs
  simp only [List.mem_flatMap, List.mem_map, List.mem_range, List.mem_range'_1,
    Prod.mk.injEq]
  constructor
  · rintro ⟨a', ha', b', ⟨hb1, hb2⟩, rfl, rfl⟩
    omega
  · rintro ⟨ha, hab, hb⟩
    exact ⟨a, ha, b, ⟨hab, by omega⟩, rfl, rfl⟩

theorem cacheStep_preserves_some
    (dist : PinCoordinate → PinCoordinate → ℚ) (pinCoords : List PinCoordinate)
    (i : ℕ) (cache : LineCache) (ab : ℕ × ℕ)
    (h : (cache.x i).isSome = true ∧ (cache.y i).isSome = true) :
    ((cacheStep dist pinCoords cache ab).x i).isSome = true ∧
      ((cacheStep dist pinCoords cache ab).y i).isSome = true := by
  unfold cacheStep
  dsimp only
  constructor <;> split <;> simp_all

theorem cacheStep_sets_some
    (dist : PinCoordinate → PinCoordinate → ℚ) (pinCoords : List PinCoordinate)
    (cache : LineCache) (a b : ℕ) (i : ℕ)
    (hi : i = a * pinCoords.length + b ∨ i = b * pinCoords.length + a) :
    ((cacheStep dist pinCoords cache (a, b)).x i).isSome = true ∧
      ((cacheStep dist pinCoords cache (a, b)).y i).isSome = true := by
  unfold cacheStep
  dsimp only
  constructor <;> rw [if_pos hi] <;> rfl


theorem foldl_preserves_of_mem {α γ : Type} (f : γ → α → γ) (P : γ → Prop) :
    ∀ l : List α, (∀ c y, y ∈ l → P c → P (f c y)) →
      ∀ c : γ, P c → P (l.foldl f c) := by
  intro l
  induction l with
  | nil => intro _ c hc; exact hc
  | cons y rest ih =>
      intro hpres c hc
      exact ih (fun c' z hz => hpres c' z (List.mem_cons_of_mem y hz)) (f c y)
        (hpres c y (List.mem_cons_self y rest) hc)

theorem precalculateLineCache_weight_one
    (dist : PinCoordinate → PinCoordinate → ℚ) (pinCoords : List PinCoordinate)
    (minDistance i : ℕ) :
    (precalculateLineCache dist pinCoords minDistance).weight i = 1 := by
  unfold precalculateLineCache
  refine foldl_preserves (cacheStep dist pinCoords)
    (fun c => c.weight i = 1) ?_ _ _ rfl
  intro c y hc
  simpa [cacheStep] using hc

theorem precalculateLineCache_x_unwritten
    (dist : PinCoordinate → PinCoordinate → ℚ) (pinCoords : List PinCoordinate)
    (minDistance i : ℕ)
    (h : ∀ a b, (a, b) ∈ cachePairs pinCoords.length minDistance →
      i ≠ a * pinCoords.length + b ∧ i ≠ b * pinCoords.length + a) :
    (precalculateLineCache dist pinCoords minDistance).x i = none := by
  unfold precalculateLineCache
  refine foldl_preserves_of_mem (cacheStep dist pinCoords)
    (fun c => c.x i = none) _ ?_ _ rfl
  intro c ab hab hc
  obtain ⟨a, b⟩ := ab
  have hne := h a b hab
  unfold cacheStep
  dsimp only
  rw [if_neg (by tauto)]
  exact hc

theorem lineErrorStep_nil (w t : ℤ) (p : ℤ × ℤ) :
    lineErrorStep [] w t p = t := by
  unfold lineErrorStep
  dsimp only
  rw [if_neg]
  intro hcon
  simp at hcon
  omega

theorem calculateLineError_nil (xs ys : List ℤ) (w : ℤ) :
    calculateLineError [] xs ys w = 0 := by
  unfold calculateLineError
  generalize xs.zip ys = l
  induction l with
  | nil => rfl
  | cons p rest ih =>
      rw [List.foldl_cons, lineErrorStep_nil]
      exact ih

theorem rect5PinsW_eq : rectPinsW 5 100 100 = 2 := by
  unfold rectPinsW rectRemainder rectRawHalfW rectRawHalfH jsRound
  norm_num [Int.fract]
  rfl

theorem rect5PinsH_eq : rectPinsH 5 100 100 = 1 := by
  unfold rectPinsH rectRemainder rectRawHalfW rectRawHalfH jsRound
  norm_num [Int.fract]

theorem rect5Coords_length : rect5Coords.length = 6 := by
  unfold rect5Coords
  simp [calculateRectangularPins, rect5PinsW_eq, rect5PinsH_eq]

theorem rect5Cache_weight (i : ℕ) : rect5Cache.weight i = 1 := by
  unfold rect5Cache
  exact precalculateLineCache_weight_one (fun _ _ => 0) rect5Coords 1 i

theorem rect5Cache_some_5 :
    (rect5Cache.x (1 * 5 + 0)).isSome = true ∧
      (rect5Cache.y (1 * 5 + 0)).isSome = true := by
  unfold rect5Cache precalculateLineCache
  refine foldl_establishes (cacheStep (fun _ _ => 0) rect5Coords) _
    (fun c y h => cacheStep_preserves_some (fun _ _ => 0) rect5Coords _ c y h)
    _ _ (0, 5) ?_ ?_
  · refine (mem_cachePairs _ _ _ _).mpr ?_
    rw [rect5Coords_length]
    omega
  · intro c₀
    exact cacheStep_sets_some (fun _ _ => 0) rect5Coords c₀ 0 5 _
      (Or.inl (by omega))

theorem rect5Cache_some_10 :
    (rect5Cache.x (2 * 5 + 0)).isSome = true ∧
      (rect5Cache.y (2 * 5 + 0)).isSome = true := by
  unfold rect5Cache precalculateLineCache
  refine foldl_establishes (cacheStep (fun _ _ => 0) rect5Coords) _
    (fun c y h => cacheStep_preserves_some (fun _ _ => 0) rect5Coords _ c y h)
    _ _ (1, 4) ?_ ?_
  · refine (mem_cachePairs _ _ _ _).mpr ?_
    rw [rect5Coords_length]
    omega
  · intro c₀
    exact cacheStep_sets_some (fun _ _ => 0) rect5Coords c₀ 1 4 _
      (Or.inl (by rw [rect5Coords_length]))

theorem rect5Cache_some_15 :
    (rect5Cache.x (3 * 5 + 0)).isSome = true ∧
      (rect5Cache.y (3 * 5 + 0)).isSome = true := by
  unfold rect5Cache precalculateLineCache
  refine foldl_establishes (cacheStep (fun _ _ => 0) rect5Coords) _
    (fun c y h => cacheStep_preserves_some (fun _ _ => 0) rect5Coords _ c y h)
    _ _ (2, 3) ?_ ?_
  · refine (mem_cachePairs _ _ _ _).mpr ?_
    rw [rect5Coords_length]
    omega
  · intro c₀
    exact cacheStep_sets_some (fun _ _ => 0) rect5Coords c₀ 2 3 _
      (Or.inl (by rw [rect5Coords_length]))

theorem rect5_findBest :
    findBestNextPin 0 [] rect5Cache [] rectParams5 = (1, 0) := by
  obtain ⟨xs1, hx1⟩ := Option.isSome_iff_exists.mp rect5Cache_some_5.1
  obtain ⟨ys1, hy1⟩ := Option.isSome_iff_exists.mp rect5Cache_some_5.2
  obtain ⟨xs2, hx2⟩ := Option.isSome_iff_exists.mp rect5Cache_some_10.1
  obtain ⟨ys2, hy2⟩ := Option.isSome_iff_exists.mp rect5Cache_some_10.2
  obtain ⟨xs3, hx3⟩ := Option.isSome_iff_exists.mp rect5Cache_some_15.1
  obtain ⟨ys3, hy3⟩ := Option.isSome_iff_exists.mp rect5Cache_some_15.2
  have e0 : findBestNextPin 0 [] rect5Cache [] rectParams5 =
      findBestLoop [] rect5Cache 0 5 (effectiveWidth rectParams5)
        [1, 2, 3] (-1) (-1) := by
    unfold findBestNextPin
    rw [show getValidTargetPins 0 rectParams5.minDistance
      rectParams5.numberOfPins [] = [1, 2, 3] from by decide]
    rfl
  have e1 : findBestLoop [] rect5Cache 0 5 (effectiveWidth rectParams5)
      [1, 2, 3] (-1) (-1) =
      findBestLoop [] rect5Cache 0 5 (effectiveWidth rectParams5) [2, 3] 0 1 := by
    conv_lhs => rw [findBestLoop]
    rw [hx1, hy1]
    dsimp only
    rw [calculateLineError_nil, rect5Cache_weight]
    norm_num
  have e2 : findBestLoop [] rect5Cache 0 5 (effectiveWidth rectParams5)
      [2, 3] 0 1 =
      findBestLoop [] rect5Cache 0 5 (effectiveWidth rectParams5) [3] 0 1 := by
    conv_lhs => rw [findBestLoop]
    rw [hx2, hy2]
    dsimp only
    rw [calculateLineError_nil, rect5Cache_weight]
    norm_num
  have e3 : findBestLoop [] rect5Cache 0 5 (effectiveWidth rectParams5)
      [3] 0 1 = (1, 0) := by
    conv_lhs => rw [findBestLoop]
    rw [hx3, hy3]
    dsimp only
    rw [calculateLineError_nil, rect5Cache_weight]
    norm_num
    rfl
  rw [e0, e1, e2, e3]

theorem rect5_step :
    ∃ em tl, optimizeStep (fun _ _ => 0) rect5Coords rect5Cache rectParams5
      (initState []) = some
        { errorMatrix := em, lineSequence := [0, 1], currentPin := 1,
          totalThreadLength := tl, lastPins := [1] } := by
  unfold optimizeStep
  dsimp only [initState]
  rw [rect5_findBest]
  dsimp only
  rw [if_neg (by decide)]
  exact ⟨_, _, rfl⟩

theorem rect5_loop :
    (optimizeLoop (fun _ _ => 0) rect5Coords rect5Cache rectParams5 1
      (initState [])).currentPin = 1 ∧
    (optimizeLoop (fun _ _ => 0) rect5Coords rect5Cache rectParams5 1
      (initState [])).lastPins = [1] := by
  obtain ⟨em, tl, hstep⟩ := rect5_step
  constructor
  · rw [optimizeLoop, hstep]
    rfl
  · rw [optimizeLoop, hstep]
    rfl

/-- C5 counterexample: a validated rectangular run refutes the claim as
stated. Requesting 5 pins on a 100 by 100 rectangle yields 6 actual pin
coordinates, so the cache is a 6-wide table while the optimizer indexes it
with the requested count 5. After one optimization step the current pin is 1,
the candidate filter returns pin 4, and the queried cache index
4 * 5 + 1 = 21 = 3 * 6 + 3 is a diagonal cell the population loop never
writes: the entry is null and the null-cache guard branch is reached. -/
theorem lineCacheNullGuard_reachable :
    rect5Coords.length = 6 ∧
    rectParams5.numberOfPins = 5 ∧
    (optimizeLoop (fun _ _ => 0) rect5Coords rect5Cache rectParams5 1
        (initState [])).currentPin = 1 ∧
    (4 : ℕ) ∈ getValidTargetPins
      (optimizeLoop (fun _ _ => 0) rect5Coords rect5Cache rectParams5 1
        (initState [])).currentPin
      rectParams5.minDistance rectParams5.numberOfPins
      (optimizeLoop (fun _ _ => 0) rect5Coords rect5Cache rectParams5 1
        (initState [])).lastPins ∧
    rect5Cache.x (4 * rectParams5.numberOfPins +
      (optimizeLoop (fun _ _ => 0) rect5Coords rect5Cache rectParams5 1
        (initState [])).currentPin) = none := by
  obtain ⟨hcur, hlast⟩ := rect5_loop
  refine ⟨rect5Coords_length, rfl, hcur, ?_, ?_⟩
  · rw [hcur, hlast]
    decide
  · rw [hcur]
    unfold rect5Cache
    apply precalculateLineCache_x_unwritten
    intro a b hab
    rw [rect5Coords_length] at hab
    obtain ⟨ha, hab', hb⟩ := (mem_cachePairs _ _ _ _).mp hab
    rw [rect5Coords_length, show rectParams5.numberOfPins = 5 from rfl]
    omega

/-- C5 (amended): whenever the pin-coordinate list has exactly
`numberOfPins` entries (as holds for circular layouts, where the layout
routine returns exactly the requested count), every candidate pin returned by
the circular-offset candidate filter has a populated (non-null) line cache
entry at the queried index `testPin * numberOfPins + currentPin`: the cache's
linear separation condition `b ≥ a + minDistance` covers every legal
circular-distance pair, so under that agreement the null-cache guard in the
scoring loop never fires. For rectangular layouts the actual coordinate
count can differ from the requested `numberOfPins` and the guard is
reachable, as a concrete run below exhibits. -/
theorem findBestNextPin_cache_populated
    (dist : PinCoordinate → PinCoordinate → ℚ) (pinCoords : List PinCoordinate)
    (params : StringArtParameters)
    (hn : pinCoords.length = params.numberOfPins)
    (currentPin : ℕ) (hc : currentPin < params.numberOfPins)
    (lastPins : List ℕ) (p : ℕ)
    (hp : p ∈ getValidTargetPins currentPin params.minDistance
      params.numberOfPins lastPins) :
    ((precalculateLineCache dist pinCoords params.minDistance).x
        (p * params.numberOfPins + currentPin)).isSome = true ∧
      ((precalculateLineCache dist pinCoords params.minDistance).y
        (p * params.numberOfPins + currentPin)).isSome = true := by
  rw [← hn] at hc hp ⊢
  obtain ⟨⟨o, ho1, ho2, hpeq⟩, -⟩ := (getValidTargetPins_mem_iff _ _ _ _ _).mp hp
  have hn0 : 0 < pinCoords.length := by omega
  have hpn : p < pinCoords.length := by
    rw [hpeq]
    exact Nat.mod_lt _ hn0
  have key : p = currentPin + o ∨ p + pinCoords.length = currentPin + o := by
    rcases Nat.lt_or_ge (currentPin + o) pinCoords.length with h | h
    · left
      rw [hpeq]
      exact Nat.mod_eq_of_lt h
    · right
      have h2 : currentPin + o - pinCoords.length < pinCoords.length := by omega
      rw [hpeq, Nat.mod_eq_sub_mod h, Nat.mod_eq_of_lt h2]
      omega
  unfold precalculateLineCache
  rcases key with hk | hk
  · exact foldl_establishes (cacheStep dist pinCoords)
      (fun c => (c.x (p * pinCoords.length + currentPin)).isSome = true ∧
        (c.y (p * pinCoords.length + currentPin)).isSome = true)
      (fun c y h => cacheStep_preserves_some dist pinCoords _ c y h)
      (cachePairs pinCoords.length params.minDistance) _ (currentPin, p)
      ((mem_cachePairs _ _ _ _).mpr (by omega))
      (fun c₀ => cacheStep_sets_some dist pinCoords c₀ currentPin p _ (Or.inr rfl))
  · exact foldl_establishes (cacheStep dist pinCoords)
      (fun c => (c.x (p * pinCoords.length + currentPin)).isSome = true ∧
        (c.y (p * pinCoords.length + currentPin)).isSome = true)
      (fun c y h => cacheStep_preserves_some dist pinCoords _ c y h)
      (cachePairs pinCoords.length params.minDistance) _ (p, currentPin)
      ((mem_cachePairs _ _ _ _).mpr (by omega))
      (fun c₀ => cacheStep_sets_some dist pinCoords c₀ p currentPin _ (Or.inl rfl))

theorem findBestNextPin_cache_populated_witness :
    ((precalculateLineCache (fun _ _ => 0) threePinCoords
        threePinParams.minDistance).x
        (1 * threePinParams.numberOfPins + 0)).isSome = true ∧
      ((precalculateLineCache (fun _ _ => 0) threePinCoords
        threePinParams.minDistance).y
        (1 * threePinParams.numberOfPins + 0)).isSome = true :=
  findBestNextPin_cache_populated (fun _ _ => 0) threePinCoords threePinParams
    rfl 0 (by norm_num [threePinParams]) [] 1 (by decide)


theorem getD_nonneg (em : List ℤ) (i : ℕ) (hem : ∀ e ∈ em, 0 ≤ e) :
    0 ≤ em.getD i 0 := by
  rcases Nat.lt_or_ge i em.length with h | h
  · rw [List.getD_eq_getElem em 0 h]
    exact hem _ (List.getElem_mem h)
  · rw [List.getD_eq_default em 0 h]

theorem foldl_lineErrorStep_nonneg (em : List ℤ) (w : ℤ)
    (hem : ∀ e ∈ em, 0 ≤ e) :
    ∀ (l : List (ℤ × ℤ)) (t : ℤ), 0 ≤ t →
      0 ≤ l.foldl (lineErrorStep em w) t := by
  intro l
  induction l with
  | nil => intro t ht; exact ht
  | cons p rest ih =>
      intro t ht
      refine ih (lineErrorStep em w t p) ?_
      unfold lineErrorStep
      dsimp only
      split
      · have := getD_nonneg em (p.2 * w + p.1).toNat hem
        omega
      · exact ht

theorem calculateLineError_nonneg (em xs ys : List ℤ) (w : ℤ)
    (hem : ∀ e ∈ em, 0 ≤ e) : 0 ≤ calculateLineError em xs ys w :=
  foldl_lineErrorStep_nonneg em w hem (xs.zip ys) 0 le_rfl

theorem candidateScore_nonneg (em : List ℤ) (cache : LineCache) (c n : ℕ)
    (effW : ℤ) (p : ℕ) (hem : ∀ e ∈ em, 0 ≤ e)
    (hw : 0 ≤ cache.weight (p * n + c)) :
    0 ≤ candidateScore em cache c n effW p :=
  mul_nonneg (calculateLineError_nonneg em _ _ effW hem) hw


theorem findBestLoop_char (em : List ℤ) (cache : LineCache) (c n : ℕ)
    (effW : ℤ) :
    ∀ (l : List ℕ) (m b : ℤ),
      (∀ p ∈ l, (cache.x (p * n + c)).isSome = true ∧
        (cache.y (p * n + c)).isSome = true) →
      ((∀ p ∈ l, candidateScore em cache c n effW p ≤ m) ∧
        findBestLoop em cache c n effW l m b = (b, m)) ∨
      (∃ i : Fin l.length,
        m < candidateScore em cache c n effW (l.get i) ∧
        findBestLoop em cache c n effW l m b =
          (((l.get i : ℕ) : ℤ), candidateScore em cache c n effW (l.get i)) ∧
        (∀ j : Fin l.length, candidateScore em cache c n effW (l.get j) ≤
          candidateScore em cache c n effW (l.get i)) ∧
        (∀ j : Fin l.length, (j : ℕ) < (i : ℕ) →
          candidateScore em cache c n effW (l.get j) <
            candidateScore em cache c n effW (l.get i))) := by
  intro l
  induction l with
  | nil =>
      intro m b _
      left
      exact ⟨by simp, rfl⟩
  | cons t rest ih =>
      intro m b hpop
      obtain ⟨hxt, hyt⟩ := hpop t (List.mem_cons_self t rest)
      rcases Option.isSome_iff_exists.mp hxt with ⟨xs, hx⟩
      rcases Option.isSome_iff_exists.mp hyt with ⟨ys, hy⟩
      have hscore : calculateLineError em xs ys effW * cache.weight (t * n + c) =
          candidateScore em cache c n effW t := by
        unfold candidateScore
        dsimp only
        rw [hx, hy]
        rfl
      have hrest : ∀ p ∈ rest, (cache.x (p * n + c)).isSome = true ∧
          (cache.y (p * n + c)).isSome = true :=
        fun p hp => hpop p (List.mem_cons_of_mem t hp)
      have hunfold : findBestLoop em cache c n effW (t :: rest) m b =
          if m < calculateLineError em xs ys effW * cache.weight (t * n + c) then
            findBestLoop em cache c n effW rest
              (calculateLineError em xs ys effW * cache.weight (t * n + c))
              (t : ℤ)
          else findBestLoop em cache c n effW rest m b := by
        rw [findBestLoop, hx, hy]
      rw [hunfold]
      by_cases hlt :
          m < calculateLineError em xs ys effW * cache.weight (t * n + c)
      · rw [if_pos hlt]
        rcases ih (calculateLineError em xs ys effW * cache.weight (t * n + c))
            (t : ℤ) hrest with ⟨hall, heq⟩ | ⟨i, hmi, heq, hmax, hstrict⟩
        · right
          refine ⟨⟨0, Nat.succ_pos rest.length⟩, ?_, ?_, ?_, ?_⟩
          · show m < candidateScore em cache c n effW t
            rw [← hscore]
            exact hlt
          · rw [heq, hscore]
            rfl
          · rintro ⟨jv, hj⟩
            cases jv with
            | zero => exact le_rfl
            | succ k =>
                show candidateScore em cache c n effW
                    (rest.get ⟨k, by simpa using hj⟩) ≤
                  candidateScore em cache c n effW t
                rw [← hscore]
                exact hall _ (rest.get_mem _ _)
          · rintro ⟨jv, hj⟩ hjlt
            simp at hjlt
        · right
          refine ⟨⟨(i : ℕ) + 1, by simp⟩, ?_, ?_, ?_, ?_⟩
          · show m < candidateScore em cache c n effW (rest.get i)
            calc m < calculateLineError em xs ys effW *
                  cache.weight (t * n + c) := hlt
              _ < candidateScore em cache c n effW (rest.get i) := hmi
          · show findBestLoop em cache c n effW rest _ _ =
              (((rest.get i : ℕ) : ℤ), candidateScore em cache c n effW (rest.get i))
            exact heq
          · rintro ⟨jv, hj⟩
            cases jv with
            | zero =>
                show candidateScore em cache c n effW t ≤
                  candidateScore em cache c n effW (rest.get i)
                rw [← hscore]
                exact le_of_lt hmi
            | succ k =>
                show candidateScore em cache c n effW
                    (rest.get ⟨k, by simpa using hj⟩) ≤
                  candidateScore em cache c n effW (rest.get i)
                exact hmax _
          · rintro ⟨jv, hj⟩ hjlt
            cases jv with
            | zero =>
                show candidateScore em cache c n effW t <
                  candidateScore em cache c n effW (rest.get i)
                rw [← hscore]
                exact hmi
            | succ k =>
                show candidateScore em cache c n effW
                    (rest.get ⟨k, by simpa using hj⟩) <
                  candidateScore em cache c n effW (rest.get i)
                exact hstrict ⟨k, by simpa using hj⟩ (by simpa using hjlt)
      · rw [if_neg hlt]
        rcases ih m b hrest with ⟨hall, heq⟩ | ⟨i, hmi, heq, hmax, hstrict⟩
        · left
          refine ⟨?_, heq⟩
          intro p hp
          rcases List.mem_cons.mp hp with rfl | hp'
          · rw [← hscore]
            exact le_of_not_lt hlt
          · exact hall p hp'
        · right
          refine ⟨⟨(i : ℕ) + 1, by simp⟩, ?_, ?_, ?_, ?_⟩
          · exact hmi
          · exact heq
          · rintro ⟨jv, hj⟩
            cases jv with
            | zero =>
                show candidateScore em cache c n effW t ≤
                  candidateScore em cache c n effW (rest.get i)
                rw [← hscore]
                exact le_trans (le_of_not_lt hlt) (le_of_lt hmi)
            | succ k =>
                show candidateScore em cache c n effW
                    (rest.get ⟨k, by simpa using hj⟩) ≤
                  candidateScore em cache c n effW (rest.get i)
                exact hmax _
          · rintro ⟨jv, hj⟩ hjlt
            cases jv with
            | zero =>
                show candidateScore em cache c n effW t <
                  candidateScore em cache c n effW (rest.get i)
                rw [← hscore]
                exact lt_of_le_of_lt (le_of_not_lt hlt) hmi
            | succ k =>
                show candidateScore em cache c n effW
                    (rest.get ⟨k, by simpa using hj⟩) <
                  candidateScore em cache c n effW (rest.get i)
                exact hstrict ⟨k, by simpa using hj⟩ (by simpa using hjlt)


/-- C1: per optimization step, the candidate set consists of the pins at
circular offset `minDistance .. pinCount − minDistance − 1` from the current
pin (wrapping), excluding pins in the recent-pins FIFO; and (provided every
candidate has a populated cache entry with nonnegative weight, and the error
matrix is nonnegative, as holds in every real run) the pin selected by
`findBestNextPin` is the candidate with the strictly greatest score, ties
resolving to the candidate evaluated first, i.e. at the smallest circular
offset (offset-ascending iteration order). -/
theorem findBestNextPin_first_argmax (currentPin : ℕ) (errorMatrix : List ℤ)
    (cache : LineCache) (lastPins : List ℕ) (params : StringArtParameters)
    (hem : ∀ e ∈ errorMatrix, 0 ≤ e)
    (hpop : ∀ p ∈ getValidTargetPins currentPin params.minDistance
        params.numberOfPins lastPins,
      (cache.x (p * params.numberOfPins + currentPin)).isSome = true ∧
        (cache.y (p * params.numberOfPins + currentPin)).isSome = true ∧
        0 ≤ cache.weight (p * params.numberOfPins + currentPin))
    (hne : getValidTargetPins currentPin params.minDistance
        params.numberOfPins lastPins ≠ []) :
    (∀ q, q ∈ getValidTargetPins currentPin params.minDistance
        params.numberOfPins lastPins ↔
      (∃ o, params.minDistance ≤ o ∧
        o + params.minDistance < params.numberOfPins ∧
        q = (currentPin + o) % params.numberOfPins) ∧ q ∉ lastPins) ∧
    ∃ i : Fin (getValidTargetPins currentPin params.minDistance
        params.numberOfPins lastPins).length,
      (findBestNextPin currentPin errorMatrix cache lastPins params).1 =
        (((getValidTargetPins currentPin params.minDistance
          params.numberOfPins lastPins).get i : ℕ) : ℤ) ∧
      (∀ j, candidateScore errorMatrix cache currentPin params.numberOfPins
          (effectiveWidth params)
          ((getValidTargetPins currentPin params.minDistance
            params.numberOfPins lastPins).get j) ≤
        candidateScore errorMatrix cache currentPin params.numberOfPins
          (effectiveWidth params)
          ((getValidTargetPins currentPin params.minDistance
            params.numberOfPins lastPins).get i)) ∧
      (∀ j : Fin (getValidTargetPins currentPin params.minDistance
          params.numberOfPins lastPins).length, (j : ℕ) < (i : ℕ) →
        candidateScore errorMatrix cache currentPin params.numberOfPins
          (effectiveWidth params)
          ((getValidTargetPins currentPin params.minDistance
            params.numberOfPins lastPins).get j) <
        candidateScore errorMatrix cache currentPin params.numberOfPins
          (effectiveWidth params)
          ((getValidTargetPins currentPin params.minDistance
            params.numberOfPins lastPins).get i)) := by
  refine ⟨fun q => getValidTargetPins_mem_iff _ _ _ _ q, ?_⟩
  have hpop' : ∀ p ∈ getValidTargetPins currentPin params.minDistance
      params.numberOfPins lastPins,
      (cache.x (p * params.numberOfPins + currentPin)).isSome = true ∧
        (cache.y (p * params.numberOfPins + currentPin)).isSome = true :=
    fun p hp => ⟨(hpop p hp).1, (hpop p hp).2.1⟩
  rcases findBestLoop_char errorMatrix cache currentPin params.numberOfPins
      (effectiveWidth params)
      (getValidTargetPins currentPin params.minDistance params.numberOfPins
        lastPins) (-1) (-1) hpop' with ⟨hall, -⟩ | ⟨i, -, heq, hmax, hstrict⟩
  · exfalso
    rcases List.exists_mem_of_ne_nil _ hne with ⟨p₀, hp₀⟩
    have hle := hall p₀ hp₀
    have hnn := candidateScore_nonneg errorMatrix cache currentPin
      params.numberOfPins (effectiveWidth params) p₀ hem (hpop p₀ hp₀).2.2
    omega
  · refine ⟨i, ?_, hmax, hstrict⟩
    unfold findBestNextPin
    rw [heq]


theorem findBestNextPin_first_argmax_witness :
    (getValidTargetPins 0 threePinParams.minDistance
        threePinParams.numberOfPins [] ≠ []) ∧
    ∃ i : Fin (getValidTargetPins 0 threePinParams.minDistance
        threePinParams.numberOfPins []).length,
      (findBestNextPin 0 []
          (precalculateLineCache (fun _ _ => 0) threePinCoords
            threePinParams.minDistance) [] threePinParams).1 =
        (((getValidTargetPins 0 threePinParams.minDistance
          threePinParams.numberOfPins []).get i : ℕ) : ℤ) := by
  refine ⟨by decide, ?_⟩
  obtain ⟨-, i, hi, -, -⟩ := findBestNextPin_first_argmax 0 []
    (precalculateLineCache (fun _ _ => 0) threePinCoords
      threePinParams.minDistance) [] threePinParams
    (by intro e he; exact absurd he (List.not_mem_nil e))
    (by decide) (by decide)
  exact ⟨i, hi⟩


theorem findBestLoop_result_cases (em : List ℤ) (cache : LineCache) (c n : ℕ)
    (effW : ℤ) :
    ∀ (l : List ℕ) (m b : ℤ),
      (findBestLoop em cache c n effW l m b).1 = b ∨
        ∃ p ∈ l, (findBestLoop em cache c n effW l m b).1 = (p : ℤ) := by
  intro l
  induction l with
  | nil => intro m b; left; rfl
  | cons t rest ih =>
      intro m b
      cases hx : cache.x (t * n + c) with
      | none =>
          rw [findBestLoop, hx]
          rcases ih m b with h | ⟨p, hp, hpe⟩
          · left; exact h
          · right; exact ⟨p, List.mem_cons_of_mem t hp, hpe⟩
      | some xs =>
          cases hy : cache.y (t * n + c) with
          | none =>
              rw [findBestLoop, hx, hy]
              rcases ih m b with h | ⟨p, hp, hpe⟩
              · left; exact h
              · right; exact ⟨p, List.mem_cons_of_mem t hp, hpe⟩
          | some ys =>
              rw [findBestLoop, hx, hy]
              dsimp only
              split
              · rcases ih (calculateLineError em xs ys effW *
                    cache.weight (t * n + c)) (t : ℤ) with h | ⟨p, hp, hpe⟩
                · right; exact ⟨t, List.mem_cons_self t rest, h⟩
                · right; exact ⟨p, List.mem_cons_of_mem t hp, hpe⟩
              · rcases ih m b with h | ⟨p, hp, hpe⟩
                · left; exact h
                · right; exact ⟨p, List.mem_cons_of_mem t hp, hpe⟩

theorem mod_add_two_cases (c o n : ℕ) (hc : c < n) (ho : o < n) :
    (c + o) % n = c + o ∨ (c + o) % n + n = c + o := by
  rcases Nat.lt_or_ge (c + o) n with h | h
  · left
    exact Nat.mod_eq_of_lt h
  · right
    have h2 : c + o - n < n := by omega
    rw [Nat.mod_eq_sub_mod h, Nat.mod_eq_of_lt h2]
    omega

theorem valid_move_of_candidate (currentPin p minD n : ℕ)
    (hc : currentPin < n) (hmin : 1 ≤ minD)
    (hmem : ∃ o, minD ≤ o ∧ o + minD < n ∧ p = (currentPin + o) % n) :
    p < n ∧ currentPin ≠ p ∧ minD ≤ calculateMinPinDistance currentPin p n := by
  obtain ⟨o, ho1, ho2, hpeq⟩ := hmem
  have hn0 : 0 < n := by omega
  have ho : o < n := by omega
  have key := mod_add_two_cases currentPin o n hc ho
  rw [← hpeq] at key
  have hpn : p < n := by
    rw [hpeq]
    exact Nat.mod_lt _ hn0
  unfold calculateMinPinDistance
  dsimp only
  rcases key with hk | hk <;> constructor
  · exact hpn
  · omega
  · exact hpn
  · omega

theorem optimizeStep_preserves
    (dist : PinCoordinate → PinCoordinate → ℚ)
    (pinCoords : List PinCoordinate) (cache : LineCache)
    (params : StringArtParameters) (s s' : OptState)
    (hmin : 1 ≤ params.minDistance)
    (hstep : optimizeStep dist pinCoords cache params s = some s')
    (hinv : seqInvariant params.numberOfPins params.minDistance s) :
    seqInvariant params.numberOfPins params.minDistance s' := by
  obtain ⟨hcur, hne, hlast, hmem, hchain⟩ := hinv
  unfold optimizeStep at hstep
  dsimp only at hstep
  split at hstep
  · exact absurd hstep (by simp)
  · rename_i hbp
    rcases findBestLoop_result_cases s.errorMatrix cache s.currentPin
        params.numberOfPins (effectiveWidth params)
        (getValidTargetPins s.currentPin params.minDistance
          params.numberOfPins s.lastPins) (-1) (-1) with hres | ⟨p, hp, hres⟩
    · exact absurd hres hbp
    · obtain ⟨hcand, -⟩ := (getValidTargetPins_mem_iff _ _ _ _ p).mp hp
      obtain ⟨hpn, hneq, hdist⟩ := valid_move_of_candidate s.currentPin p
        params.minDistance params.numberOfPins hcur hmin hcand
      have htn : (findBestNextPin s.currentPin s.errorMatrix cache
          s.lastPins params).1.toNat = p := by
        unfold findBestNextPin
        rw [hres]
        exact Int.toNat_natCast p
      replace hstep := Option.some.inj hstep
      subst hstep
      refine ⟨by rw [htn]; exact hpn, by simp, ?_, ?_, ?_⟩
      · show (s.lineSequence ++ [_]).getLast? = _
        rw [List.getLast?_concat]
      · intro q hq
        rcases List.mem_append.mp hq with hq' | hq'
        · exact hmem q hq'
        · rw [List.mem_singleton.mp hq', htn]
          exact hpn
      · show (s.lineSequence ++ [_]).Chain' _
        rw [List.chain'_append]
        refine ⟨hchain, List.chain'_singleton _, ?_⟩
        intro x hx y hy
        rw [hlast] at hx
        rw [Option.mem_some_iff] at hx
        subst hx
        simp only [List.head?_cons, Option.mem_some_iff] at hy
        subst hy
        rw [htn]
        exact ⟨hneq, hdist⟩

theorem optimizeLoop_preserves
    (dist : PinCoordinate → PinCoordinate → ℚ)
    (pinCoords : List PinCoordinate) (cache : LineCache)
    (params : StringArtParameters) (hmin : 1 ≤ params.minDistance) :
    ∀ (k : ℕ) (s : OptState),
      seqInvariant params.numberOfPins params.minDistance s →
      seqInvariant params.numberOfPins params.minDistance
        (optimizeLoop dist pinCoords cache params k s) := by
  intro k
  induction k with
  | zero => intro s hs; exact hs
  | succ k ih =>
      intro s hs
      rw [optimizeLoop]
      cases hstep : optimizeStep dist pinCoords cache params s with
      | none => exact hs
      | some s' =>
          exact ih s' (optimizeStep_preserves dist pinCoords cache params
            s s' hmin hstep hs)

/-- C2: for every run of the optimizer (with at least one pin and a positive
minimum distance, as parameter validation guarantees), every element of the
returned pin sequence is a valid index in `[0, pinCount)`, no two consecutive
entries are equal, and every adjacent pair has circular pin-index distance at
least `minDistance`. -/
theorem optimizeStringArt_sequence_valid
    (dist : PinCoordinate → PinCoordinate → ℚ) (errorMatrix : List ℤ)
    (pinCoords : List PinCoordinate) (cache : LineCache)
    (params : StringArtParameters)
    (hpins : 1 ≤ params.numberOfPins) (hmin : 1 ≤ params.minDistance) :
    (∀ p ∈ (optimizeStringArt dist errorMatrix pinCoords cache params).1,
      p < params.numberOfPins) ∧
    (optimizeStringArt dist errorMatrix pinCoords cache params).1.Chain'
      (fun a b => a ≠ b ∧
        params.minDistance ≤ calculateMinPinDistance a b params.numberOfPins) := by
  have hinit : seqInvariant params.numberOfPins params.minDistance
      (initState errorMatrix) := by
    refine ⟨hpins, by simp [initState], by simp [initState], ?_, ?_⟩
    · intro p hp
      rw [initState] at hp
      simp only [List.mem_singleton] at hp
      omega
    · exact List.chain'_singleton _
  have h := optimizeLoop_preserves dist pinCoords cache params hmin
    params.numberOfLines (initState errorMatrix) hinit
  exact ⟨h.2.2.2.1, h.2.2.2.2⟩

theorem optimizeStringArt_sequence_valid_witness :
    ((1 : ℕ) ≤ threePinParams.numberOfPins ∧
      (1 : ℕ) ≤ threePinParams.minDistance) ∧
    (∀ p ∈ (optimizeStringArt (fun _ _ => 0) [] threePinCoords
        (precalculateLineCache (fun _ _ => 0) threePinCoords
          threePinParams.minDistance) threePinParams).1,
      p < threePinParams.numberOfPins) :=
  ⟨⟨by decide, by decide⟩,
    (optimizeStringArt_sequence_valid (fun _ _ => 0) [] threePinCoords
      (precalculateLineCache (fun _ _ => 0) threePinCoords
        threePinParams.minDistance) threePinParams (by decide) (by decide)).1⟩


theorem optimizeStep_none_of_empty
    (dist : PinCoordinate → PinCoordinate → ℚ)
    (pinCoords : List PinCoordinate) (cache : LineCache)
    (params : StringArtParameters) (s : OptState)
    (hempty : getValidTargetPins s.currentPin params.minDistance
      params.numberOfPins s.lastPins = []) :
    optimizeStep dist pinCoords cache params s = none := by
  unfold optimizeStep findBestNextPin
  rw [hempty]
  rfl

theorem optimizeLoop_fixed_of_stall
    (dist : PinCoordinate → PinCoordinate → ℚ)
    (pinCoords : List PinCoordinate) (cache : LineCache)
    (params : StringArtParameters) (s : OptState)
    (hnone : optimizeStep dist pinCoords cache params s = none) :
    ∀ k : ℕ, optimizeLoop dist pinCoords cache params k s = s := by
  intro k
  cases k with
  | zero => rfl
  | succ k =>
      rw [optimizeLoop, hnone]

theorem optimizeLoop_add
    (dist : PinCoordinate → PinCoordinate → ℚ)
    (pinCoords : List PinCoordinate) (cache : LineCache)
    (params : StringArtParameters) :
    ∀ (j k : ℕ) (s : OptState),
      optimizeLoop dist pinCoords cache params (j + k) s =
        optimizeLoop dist pinCoords cache params k
          (optimizeLoop dist pinCoords cache params j s) := by
  intro j
  induction j with
  | zero =>
      intro k s
      rw [Nat.zero_add]
      rfl
  | succ j ih =>
      intro k s
      rw [Nat.succ_add, optimizeLoop, optimizeLoop]
      cases hstep : optimizeStep dist pinCoords cache params s with
      | none =>
          rw [optimizeLoop_fixed_of_stall dist pinCoords cache params s hstep k]
      | some s' =>
          exact ih k s'

theorem optimizeStep_length
    (dist : PinCoordinate → PinCoordinate → ℚ)
    (pinCoords : List PinCoordinate) (cache : LineCache)
    (params : StringArtParameters) (s s' : OptState)
    (hstep : optimizeStep dist pinCoords cache params s = some s') :
    s'.lineSequence.length = s.lineSequence.length + 1 := by
  unfold optimizeStep at hstep
  dsimp only at hstep
  split at hstep
  · exact absurd hstep (by simp)
  · replace hstep := Option.some.inj hstep
    subst hstep
    simp

theorem optimizeLoop_length_le
    (dist : PinCoordinate → PinCoordinate → ℚ)
    (pinCoords : List PinCoordinate) (cache : LineCache)
    (params : StringArtParameters) :
    ∀ (k : ℕ) (s : OptState),
      (optimizeLoop dist pinCoords cache params k s).lineSequence.length ≤
        s.lineSequence.length + k := by
  intro k
  induction k with
  | zero =>
      intro s
      rw [optimizeLoop]
      omega
  | succ k ih =>
      intro s
      rw [optimizeLoop]
      cases hstep : optimizeStep dist pinCoords cache params s with
      | none =>
          dsimp only
          omega
      | some s' =>
          dsimp only
          have h1 := ih s'
          have h2 := optimizeStep_length dist pinCoords cache params s s' hstep
          omega

/-- C4: if the candidate set is empty after `j < numberOfLines` loop
iterations (no valid next pin under the minimum-distance and anti-backtrack
constraints), the optimizer stops early and returns exactly the intermediate state
accumulated so far — sequence and thread length unchanged by the stall — and
the returned pin sequence is shorter than `numberOfLines + 1` entries. The
run is a total function: no error is raised. -/
theorem optimizeStringArt_stall
    (dist : PinCoordinate → PinCoordinate → ℚ) (errorMatrix : List ℤ)
    (pinCoords : List PinCoordinate) (cache : LineCache)
    (params : StringArtParameters) (j : ℕ)
    (hj : j < params.numberOfLines)
    (hempty : getValidTargetPins
      (optimizeLoop dist pinCoords cache params j
        (initState errorMatrix)).currentPin
      params.minDistance params.numberOfPins
      (optimizeLoop dist pinCoords cache params j
        (initState errorMatrix)).lastPins = []) :
    optimizeStringArt dist errorMatrix pinCoords cache params =
      ((optimizeLoop dist pinCoords cache params j
          (initState errorMatrix)).lineSequence,
        (optimizeLoop dist pinCoords cache params j
          (initState errorMatrix)).totalThreadLength) ∧
    (optimizeStringArt dist errorMatrix pinCoords cache params).1.length <
      params.numberOfLines + 1 := by
  have hnone := optimizeStep_none_of_empty dist pinCoords cache params
    (optimizeLoop dist pinCoords cache params j (initState errorMatrix)) hempty
  have hrun : optimizeLoop dist pinCoords cache params params.numberOfLines
      (initState errorMatrix) =
      optimizeLoop dist pinCoords cache params j (initState errorMatrix) := by
    have hsplit : params.numberOfLines = j + (params.numberOfLines - j) := by
      omega
    rw [hsplit, optimizeLoop_add,
      optimizeLoop_fixed_of_stall dist pinCoords cache params _ hnone]
  have hres : optimizeStringArt dist errorMatrix pinCoords cache params =
      ((optimizeLoop dist pinCoords cache params j
          (initState errorMatrix)).lineSequence,
        (optimizeLoop dist pinCoords cache params j
          (initState errorMatrix)).totalThreadLength) := by
    unfold optimizeStringArt
    rw [hrun]
  refine ⟨hres, ?_⟩
  rw [hres]
  dsimp only
  have hlen := optimizeLoop_length_le dist pinCoords cache params j
    (initState errorMatrix)
  have hinit : (initState errorMatrix).lineSequence.length = 1 := rfl
  omega

theorem optimizeStringArt_stall_witness :
    ((0 : ℕ) < onePinParams.numberOfLines ∧
      getValidTargetPins
        (optimizeLoop (fun _ _ => 0) [(0, 0)] emptyCache onePinParams 0
          (initState [])).currentPin
        onePinParams.minDistance onePinParams.numberOfPins
        (optimizeLoop (fun _ _ => 0) [(0, 0)] emptyCache onePinParams 0
          (initState [])).lastPins = []) ∧
    optimizeStringArt (fun _ _ => 0) [] [(0, 0)] emptyCache onePinParams =
      ((optimizeLoop (fun _ _ => 0) [(0, 0)] emptyCache onePinParams 0
          (initState [])).lineSequence,
        (optimizeLoop (fun _ _ => 0) [(0, 0)] emptyCache onePinParams 0
          (initState [])).totalThreadLength) ∧
    (optimizeStringArt (fun _ _ => 0) [] [(0, 0)] emptyCache
        onePinParams).1.length < onePinParams.numberOfLines + 1 :=
  ⟨⟨by decide, by decide⟩,
    optimizeStringArt_stall (fun _ _ => 0) [] [(0, 0)] emptyCache onePinParams
      0 (by decide) (by decide)⟩

end StringArt
